import Mathlib

/-!
Verification development for the Offline Bitrate Converter core
(`src/App.tsx`): the time-code parser `timeToSeconds`, the log-signal
extraction performed inside `ffmpeg.setLogger`, the progress/stats state
updates, the `handleConvert` run lifecycle, the `handleReset` handler and
the `checkForFFmpeg` readiness polling loop.

Strings are modelled as `List Char`; JavaScript numbers that can be `NaN`
(or `undefined` propagated into arithmetic) are modelled as `Option ℚ`
with `none` playing the role of `NaN`.  All log-line pattern matching in
the source uses the regexes
  `/Duration: (\d{2}:\d{2}:\d{2}\.\d{2})/`
  `/time=(\d{2}:\d{2}:\d{2}\.\d{2})/`
  `/fps=\s*(\d+(\.\d+)?)/`
  `/speed=\s*(\d+\.?\d*x)/`
which are embedded below as deterministic leftmost-match scanners
(`scanFor` over every suffix, mirroring a JS regex engine's start-position
scan; for these particular patterns greedy matching needs no
backtracking, so the deterministic scanners are exact).
-/

/-- JS `\d`: the ASCII digits `0`–`9`. -/
def isDig (c : Char) : Bool := 48 ≤ c.toNat && c.toNat ≤ 57

/-- JS `\s` on the characters that can occur here: space, tab, LF, VT, FF, CR. -/
def isJsSpace (c : Char) : Bool :=
  c.toNat = 32 || c.toNat = 9 || c.toNat = 10 || c.toNat = 11 || c.toNat = 12 || c.toNat = 13

/-- Value of a digit string read left to right (what `parseFloat` computes for
the integer part of a number; kept in `ℕ` and cast to `ℚ` once, the value is
the same). -/
def digitsValN (ds : List Char) : ℕ := ds.foldl (fun acc c => 10 * acc + (c.toNat - 48)) 0

/-- Value of a digit string read as the fractional part after a decimal point. -/
def fracVal (ds : List Char) : ℚ := (digitsValN ds : ℚ) / (10 : ℚ) ^ ds.length

/-- Maximal leading run of digit characters, with the rest of the input. -/
def takeDigits : List Char → List Char × List Char
  | [] => ([], [])
  | c :: cs =>
    if isDig c then
      let p := takeDigits cs
      (c :: p.1, p.2)
    else ([], c :: cs)

/-- Unsigned part of JS `parseFloat`: maximal digit run, optional decimal
point, maximal digit run; `none` when no digit at all was read (JS `NaN`).
Exponent notation and the literal `Infinity` are not modelled: no log token
fed to `parseFloat` by the source can contain them. -/
def parseFloatCore (cs : List Char) : Option ℚ :=
  let p := takeDigits cs
  match p.2 with
  | '.' :: rest =>
    let q := takeDigits rest
    if p.1 = [] ∧ q.1 = [] then none
    else some ((digitsValN p.1 : ℚ) + fracVal q.1)
  | _ => if p.1 = [] then none else some ((digitsValN p.1 : ℚ))

/-- JS `parseFloat`: skip leading whitespace, optional sign, then the longest
numeric prefix; `none` models `NaN`. -/
def jsParseFloat (cs : List Char) : Option ℚ :=
  match cs.dropWhile isJsSpace with
  | [] => none
  | c :: rest =>
    if c = '-' then (parseFloatCore rest).map (fun q => -q)
    else if c = '+' then parseFloatCore rest
    else parseFloatCore (c :: rest)

/-- JS `String.prototype.split` with a one-character separator:
`"".split(c) = [""]`, separators delimit (possibly empty) fields. -/
def splitCh (sep : Char) : List Char → List (List Char)
  | [] => [[]]
  | c :: cs =>
    let r := splitCh sep cs
    if c = sep then [] :: r
    else (c :: r.headD []) :: r.tail

/-- Function `timeToSeconds` from `src/App.tsx`:
splits on `:`, applies `parseFloat` to each part, and combines the first
three parts (destructured as hours, minutes, seconds; a missing part is
`undefined` and, like `NaN`, poisons the arithmetic, modelled by `none`). -/
def timeToSeconds (timeStr : List Char) : Option ℚ :=
  let parts := (splitCh ':' timeStr).map jsParseFloat
  match parts[0]?.join, parts[1]?.join, parts[2]?.join with
  | some h, some m, some s => some (h * 3600 + m * 60 + s)
  | _, _, _ => none

/-- Try a position-anchored matcher at every start position, left to right:
the start-position scan of a JS regex engine. -/
def scanFor (tryAt : List Char → Option α) : List Char → Option α
  | [] => none
  | c :: rest =>
    match tryAt (c :: rest) with
    | some a => some a
    | none => scanFor tryAt rest

/-- Match a literal at the current position, returning the rest of the input. -/
def stripLit : List Char → List Char → Option (List Char)
  | [], s => some s
  | _ :: _, [] => none
  | p :: ps, c :: cs => if c = p then stripLit ps cs else none

/-- Pattern `\d{2}:\d{2}:\d{2}\.\d{2}` at the current position, returning the
captured group (the eleven matched characters). -/
def matchTimecodeAt : List Char → Option (List Char)
  | a :: b :: c :: d :: e :: f :: g :: h :: i :: j :: k :: _ =>
    if isDig a && isDig b && (c == ':') && isDig d && isDig e && (f == ':')
        && isDig g && isDig h && (i == '.') && isDig j && isDig k then
      some [a, b, c, d, e, f, g, h, i, j, k]
    else none
  | _ => none

/-- Regex `/Duration: (\d{2}:\d{2}:\d{2}\.\d{2})/` — capture group 1. -/
def scanDuration (msg : List Char) : Option (List Char) :=
  scanFor (fun s => (stripLit "Duration: ".toList s).bind matchTimecodeAt) msg

/-- Regex `/time=(\d{2}:\d{2}:\d{2}\.\d{2})/` — capture group 1. -/
def scanTime (msg : List Char) : Option (List Char) :=
  scanFor (fun s => (stripLit "time=".toList s).bind matchTimecodeAt) msg

/-- Regex `/fps=\s*(\d+(\.\d+)?)/` at one position: literal `fps=`, whitespace,
at least one digit, then an optional `.`‑digits tail (taken only when at
least one digit follows the point, as the regex requires). -/
def fpsTryAt (s : List Char) : Option (List Char) :=
  (stripLit "fps=".toList s).bind fun s1 =>
    let p := takeDigits (s1.dropWhile isJsSpace)
    if p.1 = [] then none
    else
      match p.2 with
      | '.' :: rest =>
        let q := takeDigits rest
        if q.1 = [] then some p.1 else some (p.1 ++ '.' :: q.1)
      | _ => some p.1

/-- Regex `/fps=\s*(\d+(\.\d+)?)/` — capture group 1. -/
def scanFps (msg : List Char) : Option (List Char) := scanFor fpsTryAt msg

/-- Regex `/speed=\s*(\d+\.?\d*x)/` at one position: literal `speed=`, whitespace,
at least one digit, optional `.`, more digits, then the mandatory `x`. -/
def speedTryAt (s : List Char) : Option (List Char) :=
  (stripLit "speed=".toList s).bind fun s1 =>
    let p := takeDigits (s1.dropWhile isJsSpace)
    if p.1 = [] then none
    else
      match p.2 with
      | '.' :: rest =>
        let q := takeDigits rest
        match q.2 with
        | 'x' :: _ => some (p.1 ++ '.' :: q.1 ++ ['x'])
        | _ => none
      | 'x' :: _ => some (p.1 ++ ['x'])
      | _ => none

/-- Regex `/speed=\s*(\d+\.?\d*x)/` — capture group 1. -/
def scanSpeed (msg : List Char) : Option (List Char) := scanFor speedTryAt msg

section EvalLemmas

/-- Step equation for `takeDigits` on a digit head. -/
lemma takeDigits_cons_dig (c : Char) (cs : List Char) (h : isDig c = true) :
    takeDigits (c :: cs) = (c :: (takeDigits cs).1, (takeDigits cs).2) := by
  simp [takeDigits, h]

/-- Step equation for `takeDigits` on a non-digit head. -/
lemma takeDigits_cons_nondig (c : Char) (cs : List Char) (h : isDig c = false) :
    takeDigits (c :: cs) = ([], c :: cs) := by
  simp [takeDigits, h]

lemma takeDigits_nil : takeDigits [] = ([], []) := rfl

/-- Step equation for `splitCh` on the separator. -/
lemma splitCh_cons_sep (sep : Char) (cs : List Char) :
    splitCh sep (sep :: cs) = [] :: splitCh sep cs := by simp [splitCh]

/-- Step equation for `splitCh` on a non-separator head. -/
lemma splitCh_cons_ne (sep c : Char) (cs : List Char) (h : ¬(c = sep)) :
    splitCh sep (c :: cs) = (c :: (splitCh sep cs).headD []) :: (splitCh sep cs).tail := by
  simp [splitCh, h]

lemma splitCh_nil (sep : Char) : splitCh sep [] = [[]] := rfl

/-- List `dropWhile` does nothing on a non-space head. -/
lemma dropWhile_nonspace (c : Char) (cs : List Char) (h : isJsSpace c = false) :
    (c :: cs).dropWhile isJsSpace = c :: cs := by
  simp [List.dropWhile, h]

end EvalLemmas

/-! ## JS number helpers used by the logger callback -/

/-- JS `x > 0` on a possibly-`NaN` number (`NaN > 0` is `false`). -/
def jsGt0 : Option ℚ → Bool
  | some q => decide (0 < q)
  | none => false

/-- JS division as used in `calculatedProgress = currentTime / duration`:
`NaN` poisons; division by zero (which would give `Infinity` in JS) is
modelled as `none` — it is unreachable here because the source guards the
division with `videoDurationRef.current > 0`. -/
def jsDiv : Option ℚ → Option ℚ → Option ℚ
  | some a, some b => if b = 0 then none else some (a / b)
  | _, _ => none

/-- JS `Math.min(1, x)` (`Math.min(1, NaN) = NaN`). -/
def jsMin1 : Option ℚ → Option ℚ
  | some q => some (min 1 q)
  | none => none

/-- JS `Math.round` (round half toward `+∞`; `Math.round NaN = NaN`). -/
def jsRound : Option ℚ → Option ℚ
  | some q => some ((⌊q + 1 / 2⌋ : ℤ) : ℚ)
  | none => none

/-! ## Application state (the `useState`/`useRef` cells of `App.tsx`
that the claims are about) -/

/-- The `conversionStats` object `{ fps, speed }`. `fps` is a JS number
(`Option ℚ`, `none` = `NaN`), `speed` a string. -/
structure ConvStats where
  fps : Option ℚ
  speed : List Char
  deriving DecidableEq, Repr

/-- The state cells of the `App` component that the core claims concern:
`videoFile` and `outputUrl` are tracked only as presence, `ffmpegLoaded`
models `ffmpegRef.current` being non-null, `videoDuration` models the
mutable `videoDurationRef`. -/
structure AppState where
  videoFile : Bool
  targetBitrate : List Char
  ffmpegLoaded : Bool
  progress : Option ℚ
  logs : List (List Char)
  outputUrl : Bool
  isProcessing : Bool
  stats : ConvStats
  videoDuration : Option ℚ
  deriving DecidableEq, Repr

/-- The `useState`/`useRef` initial values of `App.tsx`. -/
def initialState : AppState where
  videoFile := false
  targetBitrate := "6000k".toList
  ffmpegLoaded := false
  progress := some 0
  logs := []
  outputUrl := false
  isProcessing := false
  stats := { fps := some 0, speed := "0x".toList }
  videoDuration := some 0

/-! ## The logger callback (`ffmpeg.setLogger`, `src/App.tsx` lines 46–77) -/

/-- The `// Parse progress from logs if duration is known` block:
if `videoDurationRef.current > 0` and the line has a `time=` match,
set `progress = Math.min(1, currentTime / duration)`. -/
def progressStep (st : AppState) (msg : List Char) : AppState :=
  if jsGt0 st.videoDuration then
    match scanTime msg with
    | some g => { st with progress := jsMin1 (jsDiv (timeToSeconds g) st.videoDuration) }
    | none => st
  else st

/-- The `// Parse stats from logs` block: if the line has an `fps=` or a
`speed=` match, store `Math.round(parseFloat(fps))` and the raw speed
token, keeping the previous value for whichever is absent. -/
def statsStep (st : AppState) (msg : List Char) : AppState :=
  let fpsM := scanFps msg
  let speedM := scanSpeed msg
  if fpsM.isSome || speedM.isSome then
    { st with
        stats :=
          { fps := match fpsM with
              | some g => jsRound (jsParseFloat g)
              | none => st.stats.fps
            speed := match speedM with
              | some g => g
              | none => st.stats.speed } }
  else st

/-- One invocation of the logger callback on one log line: append the line
to `logs`; on a `Duration:` match store the parsed duration in
`videoDurationRef` and return early; otherwise run the progress block and
then the stats block. -/
def applyLog (st : AppState) (msg : List Char) : AppState :=
  let st0 := { st with logs := st.logs ++ [msg] }
  match scanDuration msg with
  | some g => { st0 with videoDuration := timeToSeconds g }
  | none => statsStep (progressStep st0 msg) msg

/-! ## Run lifecycle (`handleConvert`, lines 101–136) and reset
(`handleReset`, lines 138–147) -/

/-- Operations issued against the engine's working storage / invocation
surface, in order. -/
inductive FSOp where
  | writeFile (name : List Char)
  | run (args : List (List Char))
  | readFile (name : List Char)
  | unlink (name : List Char)
  deriving DecidableEq, Repr

/-- The argument list passed to `ffmpeg.run`. -/
def convArgs (bitrate : List Char) : List (List Char) :=
  ["-i".toList, "input.mp4".toList, "-b:v".toList, bitrate,
   "-c:a".toList, "copy".toList, "output.mp4".toList]

/-- The log line appended by the `catch` block of `handleConvert`
(the interpolated JS error detail is elided). -/
def convFailLine : List Char := "Error: Conversion failed.".toList

/-- Function `handleConvert`:
guard (`!videoFile || !targetBitrate || !ffmpegRef.current` — note there is
no `isProcessing` check), reset of the run state, `writeFile`, `ffmpeg.run`
(during which the engine pushes `runLogs` through the logger callback),
then on success `readFile` + `unlink`/`unlink`, on engine failure only the
catch-block log line; `finally` clears `isProcessing`.  Returns the final
state and the ordered list of engine storage/invocation operations.
`runSucceeds` says whether `ffmpeg.run` resolves or rejects. -/
def handleConvert (st : AppState) (runSucceeds : Bool) (runLogs : List (List Char)) :
    AppState × List FSOp :=
  if st.videoFile = false ∨ st.targetBitrate = [] ∨ st.ffmpegLoaded = false then (st, [])
  else
    let st1 := { st with
      isProcessing := true
      progress := some 0
      logs := []
      outputUrl := false
      videoDuration := some 0
      stats := { fps := some 0, speed := "0x".toList } }
    let st2 := runLogs.foldl applyLog st1
    if runSucceeds then
      ({ st2 with outputUrl := true, isProcessing := false },
       [FSOp.writeFile "input.mp4".toList,
        FSOp.run (convArgs st.targetBitrate),
        FSOp.readFile "output.mp4".toList,
        FSOp.unlink "input.mp4".toList,
        FSOp.unlink "output.mp4".toList])
    else
      ({ st2 with logs := st2.logs ++ [convFailLine], isProcessing := false },
       [FSOp.writeFile "input.mp4".toList,
        FSOp.run (convArgs st.targetBitrate)])

/-- Function `handleReset`: clears the selected file, revokes and clears the output
URL, zeroes progress, clears the logs and `isProcessing`.  (It does not
touch `conversionStats` or `videoDurationRef`.)  The second component
records whether `URL.revokeObjectURL` was called. -/
def handleReset (st : AppState) : AppState × Bool :=
  ({ st with
      videoFile := false
      outputUrl := false
      progress := some 0
      logs := []
      isProcessing := false },
   st.outputUrl)

/-! ## Engine readiness polling (`checkForFFmpeg`, lines 90–99) -/

/-- Observable state of the polling loop: how many `window.FFmpeg`
existence checks ran, whether `loadFfmpeg` was started (`resolved`),
whether another check is scheduled (`setTimeout` pending), and whether any
timeout failure was ever recorded (`failed` — no transition of the source
sets it: the only error path in `App.tsx` is inside `loadFfmpeg`'s
`catch`, which is about loading, not about the polling loop). -/
structure GateState where
  probes : ℕ
  resolved : Bool
  pending : Bool
  failed : Bool
  deriving DecidableEq, Repr

/-- The `useEffect` hook calls `checkForFFmpeg()` immediately: one check is due. -/
def gateInit : GateState := { probes := 0, resolved := false, pending := true, failed := false }

/-- One firing of a due `checkForFFmpeg` call: probe `window.FFmpeg`
(`avail n` is its existence at the `n`-th probe); on success call
`loadFfmpeg`, otherwise `setTimeout(checkForFFmpeg, 100)` — schedule the
next check 100 ms later, unconditionally. -/
def gateStep (avail : ℕ → Bool) (s : GateState) : GateState :=
  if s.pending then
    if avail s.probes then
      { s with probes := s.probes + 1, resolved := true, pending := false }
    else
      { s with probes := s.probes + 1, pending := true }
  else s

/-- The polling loop after `n` timer firings. -/
def gateRun (avail : ℕ → Bool) : ℕ → GateState
  | 0 => gateInit
  | n + 1 => gateStep avail (gateRun avail n)

/-- An engine that never becomes available. -/
def neverAvail : ℕ → Bool := fun _ => false

/-! ## Structural lemmas about the scanners and the parser -/

/-- A digit character differs from any non-digit character. -/
lemma isDig_ne_of {c d : Char} (h : isDig c = true) (hd : isDig d = false) : ¬(c = d) := by
  intro he
  subst he
  rw [h] at hd
  cases hd

/-- A digit character is not JS whitespace. -/
lemma isDig_not_space {c : Char} (h : isDig c = true) : isJsSpace c = false := by
  simp [isDig] at h
  simp [isJsSpace]
  omega

/-- Function `takeDigits` keeps only digit characters. -/
lemma takeDigits_fst_digits : ∀ cs : List Char, ∀ c ∈ (takeDigits cs).1, isDig c = true := by
  intro cs
  induction cs with
  | nil => intro c hc; simp [takeDigits] at hc
  | cons a t ih =>
    intro c hc
    by_cases ha : isDig a = true
    · rw [takeDigits_cons_dig a t ha, List.mem_cons] at hc
      rcases hc with rfl | hc
      · exact ha
      · exact ih c hc
    · rw [takeDigits_cons_nondig a t (by simpa using ha)] at hc
      simp at hc

/-- Function `takeDigits` consumes an all-digit list completely. -/
lemma takeDigits_all {l : List Char} (h : ∀ c ∈ l, isDig c = true) :
    takeDigits l = (l, []) := by
  induction l with
  | nil => rfl
  | cons a t ih =>
    rw [takeDigits_cons_dig a t (h a (by simp)),
      ih (fun c hc => h c (by simp [hc]))]

/-- Function `takeDigits` consumes an all-digit block and stops at a non-digit. -/
lemma takeDigits_append_nondig {d1 : List Char} {c : Char} {r : List Char}
    (h1 : ∀ x ∈ d1, isDig x = true) (hc : isDig c = false) :
    takeDigits (d1 ++ c :: r) = (d1, c :: r) := by
  induction d1 with
  | nil => simp [takeDigits_cons_nondig c r hc]
  | cons a t ih =>
    rw [List.cons_append, takeDigits_cons_dig a _ (h1 a (by simp)),
      ih (fun x hx => h1 x (by simp [hx]))]

/-- A successful scan means the position matcher succeeded at some suffix. -/
lemma scanFor_eq_some {α : Type} {tryAt : List Char → Option α} :
    ∀ {msg : List Char} {a : α}, scanFor tryAt msg = some a → ∃ s, tryAt s = some a := by
  intro msg
  induction msg with
  | nil => intro a h; simp [scanFor] at h
  | cons c rest ih =>
    intro a h
    rw [scanFor] at h
    cases htry : tryAt (c :: rest) with
    | some b => rw [htry] at h; exact ⟨c :: rest, htry.trans h⟩
    | none => rw [htry] at h; exact ih h

/-- JS `parseFloat` on a non-empty all-digit string yields its decimal value. -/
lemma jsParseFloat_digits {ds : List Char} (h : ∀ c ∈ ds, isDig c = true) (hne : ds ≠ []) :
    jsParseFloat ds = some ((digitsValN ds : ℚ)) := by
  obtain ⟨c, t, rfl⟩ := List.exists_cons_of_ne_nil hne
  have hc : isDig c = true := h c (by simp)
  simp only [jsParseFloat, dropWhile_nonspace c t (isDig_not_space hc)]
  rw [if_neg (isDig_ne_of hc (by decide)), if_neg (isDig_ne_of hc (by decide))]
  simp only [parseFloatCore, takeDigits_all h]
  simp

/-- JS `parseFloat` on digits, a point, and more digits yields integer plus
fractional value. -/
lemma jsParseFloat_digits_dot {d1 d2 : List Char}
    (h1 : ∀ c ∈ d1, isDig c = true) (hne : d1 ≠ [])
    (h2 : ∀ c ∈ d2, isDig c = true) :
    jsParseFloat (d1 ++ '.' :: d2) = some ((digitsValN d1 : ℚ) + fracVal d2) := by
  obtain ⟨c, t, rfl⟩ := List.exists_cons_of_ne_nil hne
  have hc : isDig c = true := h1 c (by simp)
  have htd : takeDigits (c :: (t ++ '.' :: d2)) = (c :: t, '.' :: d2) := by
    rw [← List.cons_append]
    exact takeDigits_append_nondig h1 (show isDig '.' = false by decide)
  rw [List.cons_append]
  simp only [jsParseFloat, dropWhile_nonspace c _ (isDig_not_space hc)]
  rw [if_neg (isDig_ne_of hc (by decide)), if_neg (isDig_ne_of hc (by decide))]
  simp only [parseFloatCore, htd, takeDigits_all h2]
  simp

/-- The central time-code computation: on the exact eleven-character shape
`HH:MM:SS.ff` (all digit positions digits), `timeToSeconds` returns
`HH*3600 + MM*60 + SS + ff/100`. -/
lemma timeToSeconds_shape (a b d e f g h i : Char)
    (ha : isDig a = true) (hb : isDig b = true) (hd : isDig d = true)
    (he : isDig e = true) (hf : isDig f = true) (hg : isDig g = true)
    (hh : isDig h = true) (hi : isDig i = true) :
    timeToSeconds [a, b, ':', d, e, ':', f, g, '.', h, i] =
      some ((digitsValN [a, b] : ℚ) * 3600 + (digitsValN [d, e] : ℚ) * 60 +
        ((digitsValN [f, g] : ℚ) + (digitsValN [h, i] : ℚ) / 100)) := by
  have hsplit : splitCh ':' [a, b, ':', d, e, ':', f, g, '.', h, i] =
      [[a, b], [d, e], [f, g, '.', h, i]] := by
    rw [splitCh_cons_ne ':' a _ (isDig_ne_of ha (by decide)),
      splitCh_cons_ne ':' b _ (isDig_ne_of hb (by decide)),
      splitCh_cons_sep,
      splitCh_cons_ne ':' d _ (isDig_ne_of hd (by decide)),
      splitCh_cons_ne ':' e _ (isDig_ne_of he (by decide)),
      splitCh_cons_sep,
      splitCh_cons_ne ':' f _ (isDig_ne_of hf (by decide)),
      splitCh_cons_ne ':' g _ (isDig_ne_of hg (by decide)),
      splitCh_cons_ne ':' '.' _ (by decide),
      splitCh_cons_ne ':' h _ (isDig_ne_of hh (by decide)),
      splitCh_cons_ne ':' i _ (isDig_ne_of hi (by decide)),
      splitCh_nil]
    simp
  have hp1 : jsParseFloat [a, b] = some ((digitsValN [a, b] : ℚ)) :=
    jsParseFloat_digits
      (by intro c hc
          simp only [List.mem_cons, List.not_mem_nil, or_false] at hc
          rcases hc with rfl | rfl <;> assumption)
      (by simp)
  have hp2 : jsParseFloat [d, e] = some ((digitsValN [d, e] : ℚ)) :=
    jsParseFloat_digits
      (by intro c hc
          simp only [List.mem_cons, List.not_mem_nil, or_false] at hc
          rcases hc with rfl | rfl <;> assumption)
      (by simp)
  have hp3 : jsParseFloat [f, g, '.', h, i] =
      some ((digitsValN [f, g] : ℚ) + fracVal [h, i]) := by
    have hfg : ∀ c ∈ [f, g], isDig c = true := by
      intro c hc
      simp only [List.mem_cons, List.not_mem_nil, or_false] at hc
      rcases hc with rfl | rfl <;> assumption
    have hhi : ∀ c ∈ [h, i], isDig c = true := by
      intro c hc
      simp only [List.mem_cons, List.not_mem_nil, or_false] at hc
      rcases hc with rfl | rfl <;> assumption
    have := @jsParseFloat_digits_dot [f, g] [h, i] hfg (by simp) hhi
    simpa using this
  rw [timeToSeconds, hsplit]
  simp only [List.map_cons, List.map_nil, hp1, hp2, hp3]
  simp [fracVal]
  norm_num

/-- A group captured by the timecode matcher always parses, to a
non-negative number of seconds. -/
lemma matchTimecodeAt_parses {s g : List Char} (h : matchTimecodeAt s = some g) :
    ∃ q : ℚ, timeToSeconds g = some q ∧ 0 ≤ q := by
  rcases s with _ | ⟨a, _ | ⟨b, _ | ⟨c, _ | ⟨d, _ | ⟨e, _ | ⟨f, _ | ⟨g1, _ | ⟨h1, _ |
    ⟨i1, _ | ⟨j1, _ | ⟨k1, rest⟩⟩⟩⟩⟩⟩⟩⟩⟩⟩⟩ <;>
    try exact Option.noConfusion h
  rw [matchTimecodeAt] at h
  split at h
  case isFalse => exact Option.noConfusion h
  case isTrue hcond =>
    simp only [Bool.and_eq_true, beq_iff_eq] at hcond
    obtain ⟨⟨⟨⟨⟨⟨⟨⟨⟨⟨ha, hb⟩, hc⟩, hd⟩, he⟩, hf⟩, hg⟩, hh⟩, hi⟩, hj⟩, hk⟩ := hcond
    subst hc hf hi
    injection h with h
    subst h
    refine ⟨_, timeToSeconds_shape a b d e g1 h1 j1 k1 ha hb hd he hg hh hj hk, ?_⟩
    positivity

/-- A group captured by the `Duration:` pattern always parses, to a
non-negative number of seconds. -/
lemma scanDuration_parses {msg g : List Char} (h : scanDuration msg = some g) :
    ∃ q : ℚ, timeToSeconds g = some q ∧ 0 ≤ q := by
  obtain ⟨s, hs⟩ := scanFor_eq_some h
  obtain ⟨mid, _, hm⟩ := Option.bind_eq_some.mp hs
  exact matchTimecodeAt_parses hm

/-- A group captured by the `time=` pattern always parses, to a
non-negative number of seconds. -/
lemma scanTime_parses {msg g : List Char} (h : scanTime msg = some g) :
    ∃ q : ℚ, timeToSeconds g = some q ∧ 0 ≤ q := by
  obtain ⟨s, hs⟩ := scanFor_eq_some h
  obtain ⟨mid, _, hm⟩ := Option.bind_eq_some.mp hs
  exact matchTimecodeAt_parses hm

/-- A group captured by the `fps=` pattern always parses to a number
(never `NaN`). -/
lemma fpsTryAt_parses {s g : List Char} (h : fpsTryAt s = some g) :
    ∃ q : ℚ, jsParseFloat g = some q := by
  rw [fpsTryAt] at h
  obtain ⟨s1, _, hbody⟩ := Option.bind_eq_some.mp h
  simp only at hbody
  have hd1 := takeDigits_fst_digits (s1.dropWhile isJsSpace)
  split at hbody
  · exact Option.noConfusion hbody
  case isFalse hne =>
    split at hbody
    case h_1 rest heq =>
      have hd2 := takeDigits_fst_digits rest
      split at hbody
      · injection hbody with hbody
        subst hbody
        exact ⟨_, jsParseFloat_digits hd1 hne⟩
      · injection hbody with hbody
        subst hbody
        exact ⟨_, jsParseFloat_digits_dot hd1 hne hd2⟩
    case h_2 =>
      injection hbody with hbody
      subst hbody
      exact ⟨_, jsParseFloat_digits hd1 hne⟩

/-- A group captured anywhere in a line by the `fps=` pattern always parses
to a number. -/
lemma scanFps_parses {msg g : List Char} (h : scanFps msg = some g) :
    ∃ q : ℚ, jsParseFloat g = some q := by
  obtain ⟨s, hs⟩ := scanFor_eq_some h
  exact fpsTryAt_parses hs

/-! ## Field-preservation lemmas for the logger blocks -/

lemma progressStep_stats (st : AppState) (msg : List Char) :
    (progressStep st msg).stats = st.stats := by
  unfold progressStep
  split
  · split <;> rfl
  · rfl

lemma progressStep_videoDuration (st : AppState) (msg : List Char) :
    (progressStep st msg).videoDuration = st.videoDuration := by
  unfold progressStep
  split
  · split <;> rfl
  · rfl

lemma progressStep_logs (st : AppState) (msg : List Char) :
    (progressStep st msg).logs = st.logs := by
  unfold progressStep
  split
  · split <;> rfl
  · rfl

lemma statsStep_progress (st : AppState) (msg : List Char) :
    (statsStep st msg).progress = st.progress := by
  simp only [statsStep]
  split <;> rfl

lemma statsStep_videoDuration (st : AppState) (msg : List Char) :
    (statsStep st msg).videoDuration = st.videoDuration := by
  simp only [statsStep]
  split <;> rfl

lemma statsStep_logs (st : AppState) (msg : List Char) :
    (statsStep st msg).logs = st.logs := by
  simp only [statsStep]
  split <;> rfl

/-- The progress block when a positive duration is known and the line has a
`time=` match. -/
lemma progressStep_pos {st : AppState} {msg : List Char} {d : ℚ}
    (hdur : st.videoDuration = some d) (h0 : 0 < d) {g : List Char}
    (ht : scanTime msg = some g) :
    progressStep st msg = { st with progress := jsMin1 (jsDiv (timeToSeconds g) (some d)) } := by
  unfold progressStep
  rw [hdur, ht]
  simp [jsGt0, h0]

/-- The progress block is skipped while the duration ref still holds `0`. -/
lemma progressStep_unset {st : AppState} {msg : List Char}
    (hdur : st.videoDuration = some 0) :
    progressStep st msg = st := by
  unfold progressStep
  rw [hdur]
  simp [jsGt0]

/-- Function `applyLog` on a line with a `Duration:` match: store the parsed
duration, append the line, and touch nothing else (the early `return`). -/
lemma applyLog_duration (st : AppState) (msg g : List Char)
    (h : scanDuration msg = some g) :
    applyLog st msg =
      { st with logs := st.logs ++ [msg], videoDuration := timeToSeconds g } := by
  simp only [applyLog, h]

/-- Function `applyLog` on a line without a `Duration:` match runs the progress
block and then the stats block on the log-appended state. -/
lemma applyLog_noDuration (st : AppState) (msg : List Char)
    (h : scanDuration msg = none) :
    applyLog st msg =
      statsStep (progressStep { st with logs := st.logs ++ [msg] } msg) msg := by
  simp only [applyLog, h]

/-! ## Claims -/

/-- Claim C6: for every string of the fixed shape `HH:MM:SS.ff` (each
marked position an ASCII digit), the time-code parser returns
`HH*3600 + MM*60 + SS.ff` seconds. -/
theorem claimC6_timeToSeconds (a b d e f g h i : Char)
    (ha : isDig a = true) (hb : isDig b = true) (hd : isDig d = true)
    (he : isDig e = true) (hf : isDig f = true) (hg : isDig g = true)
    (hh : isDig h = true) (hi : isDig i = true) :
    timeToSeconds [a, b, ':', d, e, ':', f, g, '.', h, i] =
      some ((digitsValN [a, b] : ℚ) * 3600 + (digitsValN [d, e] : ℚ) * 60 +
        ((digitsValN [f, g] : ℚ) + (digitsValN [h, i] : ℚ) / 100)) :=
  timeToSeconds_shape a b d e f g h i ha hb hd he hf hg hh hi

/-- Witness for C6: `"00:01:30.50"` parses to `90.5` seconds. -/
theorem claimC6_timeToSeconds_witness :
    timeToSeconds "00:01:30.50".toList = some (181 / 2) := by
  have h := claimC6_timeToSeconds '0' '0' '0' '1' '3' '0' '5' '0'
    (by decide) (by decide) (by decide) (by decide)
    (by decide) (by decide) (by decide) (by decide)
  rw [show "00:01:30.50".toList = ['0', '0', ':', '0', '1', ':', '3', '0', '.', '5', '0']
    from by decide, h]
  norm_num [show digitsValN ['0', '0'] = 0 from by decide,
    show digitsValN ['0', '1'] = 1 from by decide,
    show digitsValN ['3', '0'] = 30 from by decide,
    show digitsValN ['5', '0'] = 50 from by decide]

/-- Claim C1: on a position-update line (a `time=` match on a line that is
not a `Duration:` line), if a duration `d > 0` has been discovered the
ratio becomes `clamp(s/d, 0, 1)` and never exceeds `1`; if no duration has
been discovered (the ref still holds its initial `0`) the update is
ignored and the ratio is unchanged. -/
theorem claimC1_position_update (st : AppState) (msg g : List Char) (s : ℚ)
    (hd : scanDuration msg = none) (ht : scanTime msg = some g)
    (hparse : timeToSeconds g = some s) :
    (∀ d : ℚ, st.videoDuration = some d → 0 < d →
      (applyLog st msg).progress = some (max 0 (min 1 (s / d))) ∧
        max 0 (min 1 (s / d)) ≤ 1) ∧
    (st.videoDuration = some 0 → (applyLog st msg).progress = st.progress) := by
  obtain ⟨s', hs', hs0⟩ := scanTime_parses ht
  rw [hparse] at hs'
  injection hs' with hs'
  subst hs'
  rw [applyLog_noDuration st msg hd]
  constructor
  · intro d hdur h0
    rw [statsStep_progress]
    have hdur' : ({ st with logs := st.logs ++ [msg] } : AppState).videoDuration = some d := hdur
    rw [progressStep_pos hdur' h0 ht, hparse]
    have hdiv : jsDiv (some s) (some d) = some (s / d) := by
      simp [jsDiv, ne_of_gt h0]
    rw [hdiv]
    have hnn : (0 : ℚ) ≤ s / d := div_nonneg hs0 (le_of_lt h0)
    have hmax : max 0 (min 1 (s / d)) = min 1 (s / d) :=
      max_eq_right (le_min (by norm_num) hnn)
    refine ⟨?_, ?_⟩
    · rw [hmax]; rfl
    · rw [hmax]; exact min_le_left _ _
  · intro hdur
    rw [statsStep_progress]
    have hdur' : ({ st with logs := st.logs ++ [msg] } : AppState).videoDuration = some 0 := hdur
    rw [progressStep_unset hdur']

/-- What the stats block does to `conversionStats`, for any combination of
present/absent `fps=`/`speed=` markers. -/
lemma statsStep_stats (st : AppState) (msg : List Char) :
    (statsStep st msg).stats =
      { fps :=
          match scanFps msg with
          | some g => jsRound (jsParseFloat g)
          | none => st.stats.fps
        speed :=
          match scanSpeed msg with
          | some g => g
          | none => st.stats.speed } := by
  simp only [statsStep]
  cases hf : scanFps msg <;> cases hs : scanSpeed msg <;> simp [hf, hs]

/-- The progress block does nothing when the line has no `time=` match. -/
lemma progressStep_noTime {st : AppState} {msg : List Char}
    (ht : scanTime msg = none) :
    progressStep st msg = st := by
  unfold progressStep
  rw [ht]
  split <;> rfl

/-- Claim C1 witness: with `duration = 120`, the spec's `PositionUpdate(200)`
line clamps the ratio to exactly `1`; with the duration still undiscovered,
the same line leaves the ratio at its initial `0`. -/
def C1msg : List Char :=
  "frame=4000 fps=25 q=28.0 size=2048kB time=00:03:20.00 bitrate=1000.0kbits/s speed=2.0x".toList

theorem claimC1_position_update_witness :
    (applyLog { initialState with videoDuration := some 120 } C1msg).progress = some 1 ∧
    (applyLog initialState C1msg).progress = some 0 := by
  have hparse : timeToSeconds "00:03:20.00".toList = some 200 := by
    rw [show "00:03:20.00".toList = ['0', '0', ':', '0', '3', ':', '2', '0', '.', '0', '0']
      from by decide]
    rw [timeToSeconds_shape '0' '0' '0' '3' '2' '0' '0' '0' (by decide) (by decide)
      (by decide) (by decide) (by decide) (by decide) (by decide) (by decide)]
    norm_num [show digitsValN ['0', '0'] = 0 from by decide,
      show digitsValN ['0', '3'] = 3 from by decide,
      show digitsValN ['2', '0'] = 20 from by decide]
  constructor
  · have h := (claimC1_position_update { initialState with videoDuration := some 120 }
      C1msg "00:03:20.00".toList 200 (by decide) (by decide) hparse).1 120 rfl (by norm_num)
    rw [h.1]
    have h1 : min (1 : ℚ) (200 / 120) = 1 := min_eq_left (by norm_num)
    rw [h1]
    norm_num
  · exact ((claimC1_position_update initialState C1msg "00:03:20.00".toList 200
      (by decide) (by decide) hparse).2 rfl).trans rfl

/-- Claim C8: on a rate-update line (no `Duration:` match), each of the two
stats fields is updated exactly when its marker is present, and whichever
marker is absent leaves the prior value unchanged. -/
theorem claimC8_rate_update (st : AppState) (msg : List Char)
    (hd : scanDuration msg = none) :
    ((∀ g, scanFps msg = some g →
        (applyLog st msg).stats.fps = jsRound (jsParseFloat g)) ∧
      (scanFps msg = none → (applyLog st msg).stats.fps = st.stats.fps)) ∧
    ((∀ g, scanSpeed msg = some g → (applyLog st msg).stats.speed = g) ∧
      (scanSpeed msg = none → (applyLog st msg).stats.speed = st.stats.speed)) := by
  rw [applyLog_noDuration st msg hd]
  rw [statsStep_stats]
  have hps : (progressStep { st with logs := st.logs ++ [msg] } msg).stats = st.stats :=
    (progressStep_stats _ msg).trans rfl
  rw [hps]
  refine ⟨⟨?_, ?_⟩, ?_, ?_⟩ <;> intro h1 <;> try intro h2
  · rw [h2]
  · rw [h1]
  · rw [h2]
  · rw [h1]

/-- Claim C8 witness: on a line carrying only a `speed=` marker, `speed`
is replaced and `fps` keeps its prior value; on a line carrying both, both
are replaced. -/
def C8msgBoth : List Char :=
  "frame=100 fps=25 q=29.0 size=256kB time=00:01:00.00 bitrate=34.9kbits/s speed=2.0x".toList

def C8msgSpeedOnly : List Char := "size=512kB bitrate=99.1kbits/s speed= 1.5x".toList

theorem claimC8_rate_update_witness :
    (applyLog initialState C8msgSpeedOnly).stats.speed = "1.5x".toList ∧
    (applyLog initialState C8msgSpeedOnly).stats.fps = some 0 ∧
    (applyLog initialState C8msgBoth).stats.speed = "2.0x".toList ∧
    (applyLog initialState C8msgBoth).stats.fps = some 25 := by
  have h1 := claimC8_rate_update initialState C8msgSpeedOnly (by decide)
  have h2 := claimC8_rate_update initialState C8msgBoth (by decide)
  refine ⟨?_, ?_, ?_, ?_⟩
  · exact h1.2.1 "1.5x".toList (by decide)
  · exact (h1.1.2 (by decide)).trans rfl
  · exact h2.2.1 "2.0x".toList (by decide)
  · rw [h2.1.1 ['2', '5'] (by decide)]
    rw [jsParseFloat_digits (by decide) (by simp)]
    rw [show digitsValN ['2', '5'] = 25 from by decide]
    show some ((⌊(25 : ℚ) + 1 / 2⌋ : ℤ) : ℚ) = some 25
    norm_num

/-- Claim C4 counterexample: the line
`"Duration: 00:02:00.00, fps=25 speed=2.0x"` carries an `fps=` marker (the
match yields `"25"`, which would round to `25`), yet because the
`Duration:` pattern matched first the callback returns early and the stats
are left entirely unchanged — the markers are not matched independently. -/
def C4msg : List Char := "Duration: 00:02:00.00, fps=25 speed=2.0x".toList

theorem claimC4_counterexample :
    scanFps C4msg = some ['2', '5'] ∧
    scanSpeed C4msg = some "2.0x".toList ∧
    (applyLog initialState C4msg).stats = initialState.stats ∧
    jsRound (jsParseFloat ['2', '5']) = some 25 ∧
    initialState.stats.fps = some 0 ∧ (25 : ℚ) ≠ 0 := by
  refine ⟨by decide, by decide, ?_, ?_, rfl, by norm_num⟩
  · rw [applyLog_duration initialState C4msg "00:02:00.00".toList (by decide)]
  · rw [jsParseFloat_digits (by decide) (by simp)]
    rw [show digitsValN ['2', '5'] = 25 from by decide]
    show some ((⌊(25 : ℚ) + 1 / 2⌋ : ℤ) : ℚ) = some 25
    norm_num

/-- Claim C4 amended: pattern matching is sequential with an early exit,
not independent: a `Duration:`-matching line only stores the duration (its
`time=`/`fps=`/`speed=` markers are ignored), while on a line without a
`Duration:` match the position and rate patterns are matched independently
and one line can yield both a position update and a rate update. -/
theorem claimC4_amended (st : AppState) (msg : List Char) :
    (∀ g, scanDuration msg = some g →
      applyLog st msg =
        { st with logs := st.logs ++ [msg], videoDuration := timeToSeconds g }) ∧
    (scanDuration msg = none → ∀ gt gf, scanTime msg = some gt → scanFps msg = some gf →
      ∀ d : ℚ, st.videoDuration = some d → 0 < d →
        (applyLog st msg).progress = jsMin1 (jsDiv (timeToSeconds gt) (some d)) ∧
        (applyLog st msg).stats.fps = jsRound (jsParseFloat gf)) := by
  constructor
  · intro g hg
    exact applyLog_duration st msg g hg
  · intro hd gt gf ht hf d hdur h0
    rw [applyLog_noDuration st msg hd]
    have hdur' : ({ st with logs := st.logs ++ [msg] } : AppState).videoDuration = some d := hdur
    constructor
    · rw [statsStep_progress, progressStep_pos hdur' h0 ht]
    · rw [statsStep_stats, hf]

/-- Claim C4 witness (for the amended claim): a single non-`Duration:` line
with `time=`, `fps=` and `speed=` markers updates the ratio to `0.5` and
the fps to `25` at once; a `Duration:` line stores `120` seconds and
nothing else. -/
theorem claimC4_amended_witness :
    (applyLog { initialState with videoDuration := some 120 } C8msgBoth).progress =
      some (1 / 2) ∧
    (applyLog { initialState with videoDuration := some 120 } C8msgBoth).stats.fps =
      some 25 ∧
    (applyLog initialState C4msg).videoDuration = some 120 ∧
    (applyLog initialState C4msg).progress = some 0 := by
  have hparse : timeToSeconds "00:01:00.00".toList = some 60 := by
    rw [show "00:01:00.00".toList = ['0', '0', ':', '0', '1', ':', '0', '0', '.', '0', '0']
      from by decide]
    rw [timeToSeconds_shape '0' '0' '0' '1' '0' '0' '0' '0' (by decide) (by decide)
      (by decide) (by decide) (by decide) (by decide) (by decide) (by decide)]
    norm_num [show digitsValN ['0', '0'] = 0 from by decide,
      show digitsValN ['0', '1'] = 1 from by decide]
  have h := (claimC4_amended { initialState with videoDuration := some 120 } C8msgBoth).2
    (by decide) "00:01:00.00".toList ['2', '5'] (by decide) (by decide) 120 rfl (by norm_num)
  have hdur := (claimC4_amended initialState C4msg).1 "00:02:00.00".toList (by decide)
  have hparse2 : timeToSeconds "00:02:00.00".toList = some 120 := by
    rw [show "00:02:00.00".toList = ['0', '0', ':', '0', '2', ':', '0', '0', '.', '0', '0']
      from by decide]
    rw [timeToSeconds_shape '0' '0' '0' '2' '0' '0' '0' '0' (by decide) (by decide)
      (by decide) (by decide) (by decide) (by decide) (by decide) (by decide)]
    norm_num [show digitsValN ['0', '0'] = 0 from by decide,
      show digitsValN ['0', '2'] = 2 from by decide]
  refine ⟨?_, ?_, ?_, ?_⟩
  · rw [h.1, hparse]
    have hdiv : jsDiv (some (60 : ℚ)) (some 120) = some (60 / 120) := by
      simp [jsDiv]
    rw [hdiv]
    show some (min 1 (60 / 120 : ℚ)) = some (1 / 2)
    norm_num
  · rw [h.2, jsParseFloat_digits (by decide) (by simp)]
    rw [show digitsValN ['2', '5'] = 25 from by decide]
    show some ((⌊(25 : ℚ) + 1 / 2⌋ : ℤ) : ℚ) = some 25
    norm_num
  · rw [hdur, hparse2]
  · rw [hdur]
    rfl

/-- Claim C10: the reported fps is always a whole number: it starts at `0`
and every update stores `Math.round` of the parsed value; in particular a
fractional engine fps of `24.7` is exposed as `25`. -/
def C10msg : List Char :=
  "frame=10 fps= 24.7 q=29.0 size=128kB time=00:00:30.00 bitrate=34.9kbits/s speed=1.0x".toList

theorem claimC10_fps_integer :
    (∀ msgs : List (List Char),
      ∃ n : ℤ, (msgs.foldl applyLog initialState).stats.fps = some ((n : ℤ) : ℚ)) ∧
    (applyLog initialState C10msg).stats.fps = some 25 := by
  constructor
  · have step : ∀ (st : AppState) (m : List Char),
        (∃ n : ℤ, st.stats.fps = some ((n : ℤ) : ℚ)) →
        ∃ n : ℤ, (applyLog st m).stats.fps = some ((n : ℤ) : ℚ) := by
      intro st m hst
      cases hdm : scanDuration m with
      | some g =>
        rw [applyLog_duration st m g hdm]
        exact hst
      | none =>
        rw [applyLog_noDuration st m hdm, statsStep_stats]
        cases hfm : scanFps m with
        | some g =>
          obtain ⟨q, hq⟩ := scanFps_parses hfm
          refine ⟨⌊q + 1 / 2⌋, ?_⟩
          show jsRound (jsParseFloat g) = some ((⌊q + 1 / 2⌋ : ℤ) : ℚ)
          rw [hq]
          rfl
        | none =>
          have hps : (progressStep { st with logs := st.logs ++ [m] } m).stats = st.stats :=
            (progressStep_stats _ m).trans rfl
          rw [hps]
          exact hst
    intro msgs
    have hfold : ∀ (st : AppState), (∃ n : ℤ, st.stats.fps = some ((n : ℤ) : ℚ)) →
        ∃ n : ℤ, (msgs.foldl applyLog st).stats.fps = some ((n : ℤ) : ℚ) := by
      induction msgs with
      | nil => intro st h; exact h
      | cons m t ih =>
        intro st h
        exact ih _ (step st m h)
    exact hfold initialState ⟨0, rfl⟩
  · rw [applyLog_noDuration initialState C10msg (by decide), statsStep_stats,
      show scanFps C10msg = some ['2', '4', '.', '7'] from by decide]
    show jsRound (jsParseFloat (['2', '4'] ++ '.' :: ['7'])) = some 25
    rw [jsParseFloat_digits_dot (by decide) (by simp) (by decide)]
    rw [show digitsValN ['2', '4'] = 24 from by decide]
    have h7 : fracVal ['7'] = 7 / 10 := by
      rw [fracVal, show digitsValN ['7'] = 7 from by decide]
      norm_num
    rw [h7]
    show some ((⌊((24 : ℕ) : ℚ) + 7 / 10 + 1 / 2⌋ : ℤ) : ℚ) = some 25
    norm_num

/-- Visibility of the start button in the JSX: it is rendered only when no
output is shown, a file is selected, and no conversion is running
(`{videoFile && !isProcessing && (<button ... disabled={isProcessing}>)}`
inside the `!outputUrl` branch). -/
def startButtonVisible (st : AppState) : Bool :=
  !st.outputUrl && st.videoFile && !st.isProcessing

/-- A ready-to-convert state in which a run is already in progress. -/
def exSt3 : AppState :=
  { initialState with videoFile := true, ffmpegLoaded := true, isProcessing := true }

/-- Claim C3 counterexample: in a state that is already processing
(`isProcessing = true`) with a file, a bitrate and an engine handle
present, calling `handleConvert` again is not rejected — it runs the full
body and issues a second `ffmpeg.run` invocation. -/
theorem claimC3_counterexample :
    exSt3.isProcessing = true ∧
    FSOp.run (convArgs "6000k".toList) ∈ (handleConvert exSt3 true []).2 ∧
    (handleConvert exSt3 true []).2 ≠ [] := by
  refine ⟨rfl, by decide, by decide⟩

/-- Claim C3 amended: `handleConvert` itself never checks `isProcessing`:
it rejects (returns unchanged with no engine operation) exactly when the
file, the bitrate or the engine handle is missing, and otherwise issues
the engine invocation regardless of whether a run is already in progress.
The single-run property of the app is enforced by the presentation layer,
which only renders (and enables) the start button when no run is in
progress. -/
theorem claimC3_amended (st : AppState) (rs : Bool) (rl : List (List Char)) :
    ((st.videoFile = false ∨ st.targetBitrate = [] ∨ st.ffmpegLoaded = false) →
      handleConvert st rs rl = (st, [])) ∧
    (st.videoFile = true → st.targetBitrate ≠ [] → st.ffmpegLoaded = true →
      FSOp.run (convArgs st.targetBitrate) ∈ (handleConvert st rs rl).2) ∧
    (startButtonVisible st = true → st.isProcessing = false) := by
  refine ⟨?_, ?_, ?_⟩
  · intro hguard
    rw [handleConvert, if_pos hguard]
  · intro hv hb hf
    have hguard : ¬(st.videoFile = false ∨ st.targetBitrate = [] ∨ st.ffmpegLoaded = false) := by
      simp [hv, hb, hf]
    rw [handleConvert, if_neg hguard]
    cases rs <;> simp
  · intro hvis
    simp only [startButtonVisible, Bool.and_eq_true, Bool.not_eq_true'] at hvis
    exact hvis.2

/-- Claim C3 amended witness: concretely, in the already-running state the
call issues the `ffmpeg.run` operation, and with no file selected the call
is a no-op. -/
theorem claimC3_amended_witness :
    FSOp.run (convArgs "6000k".toList) ∈ (handleConvert exSt3 true []).2 ∧
    handleConvert initialState true [] = (initialState, []) := by
  constructor
  · have h := (claimC3_amended exSt3 true []).2.1 rfl (by decide) rfl
    exact h
  · exact (claimC3_amended initialState true []).1 (Or.inl rfl)

/-- A ready-to-convert idle state (file selected, engine loaded). -/
def exSt5 : AppState :=
  { initialState with videoFile := true, ffmpegLoaded := true }

/-- Claim C5 counterexample: when `ffmpeg.run` rejects, `handleConvert`
performs only `writeFile` and `run` — no `unlink` of either the input or
the output file is attempted on the failure path (the `unlink` calls sit
after `readFile` inside the `try` block, and the `catch`/`finally` blocks
do not clean up). -/
theorem claimC5_counterexample :
    (handleConvert exSt5 false []).2 =
      [FSOp.writeFile "input.mp4".toList, FSOp.run (convArgs "6000k".toList)] ∧
    FSOp.unlink "input.mp4".toList ∉ (handleConvert exSt5 false []).2 ∧
    FSOp.unlink "output.mp4".toList ∉ (handleConvert exSt5 false []).2 := by
  refine ⟨by decide, by decide, by decide⟩

/-- Claim C5 amended: removal of the input and output files happens only on
the success path (after `readFile`); on an engine failure the run exits
after `writeFile` and `run` with no removal attempted. -/
theorem claimC5_amended (st : AppState) (rl : List (List Char))
    (hv : st.videoFile = true) (hb : st.targetBitrate ≠ []) (hf : st.ffmpegLoaded = true) :
    (handleConvert st true rl).2 =
      [FSOp.writeFile "input.mp4".toList, FSOp.run (convArgs st.targetBitrate),
       FSOp.readFile "output.mp4".toList, FSOp.unlink "input.mp4".toList,
       FSOp.unlink "output.mp4".toList] ∧
    (handleConvert st false rl).2 =
      [FSOp.writeFile "input.mp4".toList, FSOp.run (convArgs st.targetBitrate)] := by
  have hguard : ¬(st.videoFile = false ∨ st.targetBitrate = [] ∨ st.ffmpegLoaded = false) := by
    simp [hv, hb, hf]
  constructor <;> rw [handleConvert, if_neg hguard] <;> rfl

/-- Claim C5 amended witness: the two traces at a concrete ready state. -/
theorem claimC5_amended_witness :
    (handleConvert exSt5 true []).2 =
      [FSOp.writeFile "input.mp4".toList, FSOp.run (convArgs "6000k".toList),
       FSOp.readFile "output.mp4".toList, FSOp.unlink "input.mp4".toList,
       FSOp.unlink "output.mp4".toList] ∧
    (handleConvert exSt5 false []).2 =
      [FSOp.writeFile "input.mp4".toList, FSOp.run (convArgs "6000k".toList)] := by
  have h := claimC5_amended exSt5 [] rfl (by decide) rfl
  exact h

/-- A terminal state with a produced output and non-initial estimator
state (fps `25`, speed `"2.0x"`, discovered duration `120` s). -/
def exSt9 : AppState :=
  { initialState with
      videoFile := true
      ffmpegLoaded := true
      outputUrl := true
      stats := { fps := some 25, speed := "2.0x".toList }
      videoDuration := some 120 }

/-- Claim C9 counterexample: `handleReset` leaves the estimator state
behind — after reset from a terminal state the stats still read fps `25`
and speed `"2.0x"` and the discovered duration is still `120` s, not the
initial `0`/`"0x"`/`0` the claim requires. -/
theorem claimC9_counterexample :
    (handleReset exSt9).1.stats.fps = some 25 ∧
    (handleReset exSt9).1.stats.speed = "2.0x".toList ∧
    (handleReset exSt9).1.videoDuration = some 120 ∧
    (handleReset exSt9).1.stats.fps ≠ initialState.stats.fps ∧
    (handleReset exSt9).1.videoDuration ≠ initialState.videoDuration := by
  refine ⟨rfl, rfl, rfl, ?_, ?_⟩
  · show some (25 : ℚ) ≠ some 0
    simp
  · show some (120 : ℚ) ≠ some 0
    simp

/-- Claim C9 amended: `handleReset` clears the selected file, discards the
output (revoking its URL when one existed), zeroes progress, clears the
log sequence and `isProcessing`, but does not touch the estimator state:
`conversionStats` (fps, speed) and the discovered duration keep their
values (they are re-initialised only at the start of the next run). -/
theorem claimC9_amended (st : AppState) :
    (handleReset st).1.videoFile = false ∧
    (handleReset st).1.outputUrl = false ∧
    (handleReset st).1.progress = some 0 ∧
    (handleReset st).1.logs = [] ∧
    (handleReset st).1.isProcessing = false ∧
    (handleReset st).1.stats = st.stats ∧
    (handleReset st).1.videoDuration = st.videoDuration ∧
    (handleReset st).2 = st.outputUrl :=
  ⟨rfl, rfl, rfl, rfl, rfl, rfl, rfl, rfl⟩

/-- Claim C2 counterexample: with an engine that never appears, after 10
timer firings the loop has performed 10 probes — more than the claimed
`maxAttempts = 3` bound of the spec's example — has recorded no failure at
all (also none after exactly 3 probes), and still has the next check
scheduled. -/
theorem claimC2_counterexample :
    (gateRun neverAvail 10).probes = 10 ∧
    (gateRun neverAvail 10).failed = false ∧
    (gateRun neverAvail 10).pending = true ∧
    (gateRun neverAvail 3).failed = false := by
  refine ⟨by decide, by decide, by decide, by decide⟩

/-- Claim C2 amended: `checkForFFmpeg` polls indefinitely at a fixed 100 ms
spacing: there is no attempt bound and no timeout failure — after any
number `k` of unsuccessful probes it has performed exactly `k` checks, has
recorded no failure, and has the next check scheduled; a pending check
whose probe finds the engine starts `loadFfmpeg` (resolution on first
success). -/
theorem claimC2_amended :
    (∀ k : ℕ, gateRun neverAvail k =
      { probes := k, resolved := false, pending := true, failed := false }) ∧
    (∀ (avail : ℕ → Bool) (s : GateState), s.pending = true → avail s.probes = true →
      (gateStep avail s).resolved = true) := by
  constructor
  · intro k
    induction k with
    | zero => rfl
    | succ n ih =>
      rw [gateRun, ih]
      rfl
  · intro avail s hp ha
    rw [gateStep, if_pos hp, if_pos ha]

/-- Claim C2 amended witness: after 5 fruitless probes the gate is still
polling with no failure; an immediately-available engine resolves on the
first probe. -/
theorem claimC2_amended_witness :
    gateRun neverAvail 5 =
      { probes := 5, resolved := false, pending := true, failed := false } ∧
    (gateStep (fun _ => true) gateInit).resolved = true := by
  constructor
  · exact claimC2_amended.1 5
  · exact claimC2_amended.2 (fun _ => true) gateInit rfl rfl

/-- The `HH:MM:SS.ff` shape exactly as the spec words it (two digits,
colon, two digits, colon, two digits, point, two digits) — the spec-side
predicate needed to state claim C7. -/
def isTimecodeShape : List Char → Bool
  | [a, b, c, d, e, f, g, h, i, j, k] =>
    isDig a && isDig b && (c == ':') && isDig d && isDig e && (f == ':') &&
      isDig g && isDig h && (i == '.') && isDig j && isDig k
  | _ => false

/-- Claim C7 counterexample: `"1:2:3"` does not match the `HH:MM:SS.ff`
shape, yet the parser does not fail at all — it returns the ordinary
number `3723` (`1*3600 + 2*60 + 3`). -/
theorem claimC7_counterexample :
    isTimecodeShape "1:2:3".toList = false ∧
    timeToSeconds "1:2:3".toList = some 3723 := by
  refine ⟨by decide, ?_⟩
  have hp1 : jsParseFloat ['1'] = some ((digitsValN ['1'] : ℚ)) :=
    jsParseFloat_digits (by decide) (by simp)
  have hp2 : jsParseFloat ['2'] = some ((digitsValN ['2'] : ℚ)) :=
    jsParseFloat_digits (by decide) (by simp)
  have hp3 : jsParseFloat ['3'] = some ((digitsValN ['3'] : ℚ)) :=
    jsParseFloat_digits (by decide) (by simp)
  rw [timeToSeconds, show splitCh ':' "1:2:3".toList = [['1'], ['2'], ['3']] from by decide]
  simp only [List.map_cons, List.map_nil, hp1, hp2, hp3]
  rw [show digitsValN ['1'] = 1 from by decide,
    show digitsValN ['2'] = 2 from by decide,
    show digitsValN ['3'] = 3 from by decide]
  simp only [List.getElem?_cons_zero, List.getElem?_cons_succ, Option.join]
  norm_num

/-- Claim C7 amended: on input not matching `HH:MM:SS.ff` the time-code
parser does not fail with an error: it returns an ordinary JS number
(`NaN` for digit-free input such as `"ab"`, or an unintended value such as
`3723` for `"1:2:3"`).  Containment nevertheless holds, by construction
rather than by catching: the extractor invokes the parser only on
regex-matched groups, so a line on which neither timecode pattern matches
changes neither the stored duration nor the ratio, and no failure reaches
the caller or the stream. -/
theorem claimC7_amended (st : AppState) (msg : List Char)
    (hd : scanDuration msg = none) (ht : scanTime msg = none) :
    (applyLog st msg).videoDuration = st.videoDuration ∧
    (applyLog st msg).progress = st.progress ∧
    timeToSeconds "ab".toList = none := by
  rw [applyLog_noDuration st msg hd]
  refine ⟨?_, ?_, by decide⟩
  · rw [statsStep_videoDuration, progressStep_noTime ht]
  · rw [statsStep_progress, progressStep_noTime ht]

/-- Claim C7 amended witness: a marker-free line leaves duration and ratio
untouched. -/
def C7msg : List Char := "Stream mapping: Stream #0:0 -> #0:0 (h264 (native))".toList

theorem claimC7_amended_witness :
    (applyLog initialState C7msg).videoDuration = some 0 ∧
    (applyLog initialState C7msg).progress = some 0 := by
  have h := claimC7_amended initialState C7msg (by decide) (by decide)
  exact ⟨h.1.trans rfl, h.2.1.trans rfl⟩
